import Mathlib

set_option linter.unnecessarySeqFocus false

/-!
Verification of the high-load web-service simulation (`model.py`).

The repository implements `WebServiceModel`, a simpy-based discrete-event
simulation of a fleet of single-capacity servers under stochastic load,
failure and recovery.  This file gives a shallow embedding of that model:

* `random_value` embeds `WebServiceModel.random_value` over `ℝ`: the raw
  library draws (`random.random()`, the standard normal variate underlying
  `random.gauss`, the index underlying `random.choice`) are passed in
  explicitly through a `Rand` record, and the four call sites of
  `random_value` in the source are embedded as `interarrivalDraw`,
  `processingDraw`, `timeToFailureDraw` and `recoveryDraw`.

* The event-driven simulation itself (`Sim`, `exec`, `step`, `runUntil`)
  embeds the simpy environment as an explicit event queue of
  `(time, priority, insertion id)`-ordered events, together with the three
  domain processes of the source (`generate_requests`, `process_request`,
  `server_failures`) compiled to their suspension-point continuations
  (`Target`).  The numeric values produced by `random_value` during the
  simulation are abstracted as a stream `dur : ℕ → ℚ` of successive draw
  results, and the indices produced by `random.choice(self.servers)` as a
  stream `ch : ℕ → ℕ`; the simulation logic of the source treats both as
  opaque numbers, so every behaviour of the source corresponds to some
  choice of streams.

The ghost fields `spawned` (number of `env.process(self.process_request ...)`
calls made) and `genStarted` (the `generate_requests` process has run its
first step) are recorded alongside the real state to state the counting
invariants; they influence nothing.
-/

namespace Highload

/-- The `params` dictionary consumed by `WebServiceModel`.  Numeric entries
are modelled as rationals (`ℤ` for the server count, which Python does not
constrain to be positive); the distribution selectors are the strings the
source compares against.  `server_processing_time_std` models the optional
`"server_processing_time_std"` key read with `params.get(..., 0.1)`. -/
structure Params where
  num_servers : ℤ
  server_processing_time : ℚ
  server_processing_time_std : Option ℚ := none
  queue_timeout : ℚ
  request_rate : ℚ
  failure_rate : ℚ
  recovery_rate : ℚ
  request_rate_distribution : String
  server_processing_time_distribution : String
  failure_rate_distribution : String
  recovery_time_distribution : String
  custom_values : List ℚ
deriving DecidableEq

/-- The keyword arguments of one `random_value` call: exactly the keys the
source reads with `kwargs.get(key, default)`. A `none` field models an
absent keyword. -/
structure RVArgs where
  rate : Option ℝ := none
  mean : Option ℝ := none
  std : Option ℝ := none
  low : Option ℝ := none
  high : Option ℝ := none
  values : Option (List ℝ) := none

/-- The raw randomness consumed by one `random_value` call: `u` is the
`random.random()` draw in `[0,1)` that `random.expovariate` and
`random.uniform` are built from, `z` the standard normal variate underlying
`random.gauss`, and `i` the raw index underlying `random.choice`. -/
structure Rand where
  u : ℝ
  z : ℝ
  i : ℕ

/-- Shallow embedding of `WebServiceModel.random_value`.
`random.expovariate(l)` is `-log(1 - u) / l`, `random.uniform(a, b)` is
`a + (b - a) * u`, `random.gauss(m, s)` is `m + s * z` (clamped with
`max 0` by the source), and `random.choice(vs)` is `vs[i mod len vs]`,
raising `IndexError` on an empty sequence.  The defaults mirror
`kwargs.get`: `rate` 1, `low` 0, `high` 1, `mean` 0, `std` 1, `values [1]`.
Any other distribution name raises `ValueError("Unsupported distribution")`. -/
noncomputable def random_value (distribution : String) (args : RVArgs) (r : Rand) :
    Except String ℝ :=
  if distribution = "exponential" then
    .ok (-Real.log (1 - r.u) / args.rate.getD 1)
  else if distribution = "uniform" then
    .ok (args.low.getD 0 + (args.high.getD 1 - args.low.getD 0) * r.u)
  else if distribution = "normal" then
    .ok (max 0 (args.mean.getD 0 + args.std.getD 1 * r.z))
  else if distribution = "custom" then
    let vs := args.values.getD [1]
    if vs.isEmpty then .error "IndexError"
    else .ok (vs.getD (r.i % vs.length) 0)
  else .error "Unsupported distribution"

/-- The interarrival-time draw of `generate_requests`: keywords `rate`,
`mean`, `std`, `low`, `high`; no `values` keyword is passed. -/
noncomputable def interarrivalDraw (p : Params) (r : Rand) : Except String ℝ :=
  random_value p.request_rate_distribution
    { rate := some (p.request_rate : ℝ)
      mean := some (1 / (p.request_rate : ℝ))
      std := some 0.1
      low := some 0.1
      high := some (1 / (p.request_rate : ℝ) * 2) } r

/-- The processing-time draw of `process_request`: keywords `mean`, `std`,
`low`, `high`; neither `rate` nor `values` is passed. -/
noncomputable def processingDraw (p : Params) (r : Rand) : Except String ℝ :=
  random_value p.server_processing_time_distribution
    { mean := some (p.server_processing_time : ℝ)
      std := some ((p.server_processing_time_std.getD (1/10) : ℚ) : ℝ)
      low := some 0.1
      high := some ((p.server_processing_time : ℝ) * 2) } r

/-- The time-to-failure draw of `server_failures`. -/
noncomputable def timeToFailureDraw (p : Params) (r : Rand) : Except String ℝ :=
  random_value p.failure_rate_distribution
    { rate := some (p.failure_rate : ℝ)
      mean := some (1 / (p.failure_rate : ℝ))
      std := some 0.1
      low := some 0.1
      high := some (1 / (p.failure_rate : ℝ) * 2) } r

/-- The recovery-time draw of `server_failures`. -/
noncomputable def recoveryDraw (p : Params) (r : Rand) : Except String ℝ :=
  random_value p.recovery_time_distribution
    { rate := some (p.recovery_rate : ℝ)
      mean := some (1 / (p.recovery_rate : ℝ))
      std := some 0.1
      low := some 0.1
      high := some (1 / (p.recovery_rate : ℝ) * 2) } r

/-! ## The event-driven simulation

Embedding of the simpy environment together with the three domain processes
of `WebServiceModel`.  Virtual time is a rational; events are ordered by
`(time, priority, insertion id)` exactly as in simpy, with priority 0 for
process starts (simpy `Initialize`, which is `URGENT`) and 1 for ordinary
resumptions (`NORMAL`). -/

/-- One `simpy.Resource(env, capacity=1)` of the source: `capacity` is the
raw `_capacity` field the failure process pokes (1 while up, 0 while down),
`users` the number of granted requests, and `putQueue` the FIFO of blocked
`request()` calls (each recorded by the arrival time that the blocked
request handler still carries). -/
structure Server where
  capacity : ℕ
  users : ℕ
  putQueue : List ℚ
deriving DecidableEq

/-- The continuation resumed when an event fires: the suspension points of
`generate_requests` (`genStart` for the first run of the process,
`genResume` after an interarrival timeout), `process_request`
(`handlerStart` for the first run, `handlerGranted` once the resource
request has been granted, `handlerDone` after the processing timeout; the
payload is the server index and the request's arrival time), and
`server_failures` (`failStart`, `failResume` after a time-to-failure
timeout, `recoveryResume` after a recovery timeout for the given server). -/
inductive Target where
  | genStart
  | genResume
  | handlerStart
  | handlerGranted (j : ℕ) (arrival : ℚ)
  | handlerDone (j : ℕ) (arrival : ℚ)
  | failStart
  | failResume
  | recoveryResume (j : ℕ)
deriving DecidableEq

/-- A scheduled event: due time, priority (0 urgent, 1 normal) and unique
insertion id, as in simpy's `(time, priority, eid)` heap keys. -/
structure Event where
  time : ℚ
  prio : ℕ
  eid : ℕ
  target : Target
deriving DecidableEq

/-- The whole simulation state: clock, pending events, fresh event id,
the server pool, and the metric fields of `WebServiceModel` (`total`,
`completed`, `failed`, `latency`, `available`).  `durIdx` and `chIdx` are
the cursors into the two randomness streams; `spawned` and `genStarted`
are ghost observers (they influence nothing). -/
structure Sim where
  now : ℚ
  queue : List Event
  nextEid : ℕ
  servers : List Server
  total : ℕ
  completed : ℕ
  failed : ℕ
  latency : List ℚ
  available : ℤ
  durIdx : ℕ
  chIdx : ℕ
  spawned : ℕ
  genStarted : Bool
deriving DecidableEq

/-- Strict comparison of simpy heap keys `(time, priority, eid)`. -/
def evLt (a b : Event) : Bool :=
  if a.time < b.time then true
  else if b.time < a.time then false
  else if a.prio < b.prio then true
  else if b.prio < a.prio then false
  else a.eid < b.eid

/-- Pop the earliest event (by `evLt`) from the pending list, returning it
together with the remaining events. -/
def popMin : List Event → Option (Event × List Event)
  | [] => none
  | e :: es =>
    match popMin es with
    | none => some (e, [])
    | some (m, rest) => if evLt e m then some (e, es) else some (m, e :: rest)

/-- Schedule a new event `delay` after the current time, mirroring
`env.schedule`: it receives the next insertion id. -/
def sched (st : Sim) (delay : ℚ) (prio : ℕ) (tg : Target) : Sim :=
  { st with
    queue := st.queue ++ [⟨st.now + delay, prio, st.nextEid, tg⟩]
    nextEid := st.nextEid + 1 }

/-- The server scan of `process_request`: the first server (in fixed
ascending index order) with `len(s.users) == 0`, together with its index.
Note the source consults only `users`, not the capacity. -/
def scanServers : List Server → Option (ℕ × Server)
  | [] => none
  | s :: rest =>
    if s.users = 0 then some (0, s)
    else (scanServers rest).map (fun x => (x.1 + 1, x.2))

/-- Index into the server pool. -/
def serverAt (l : List Server) (j : ℕ) : Option Server := l.get? j

/-- Replace the server at index `j` by `f` of it (no-op out of range). -/
def updateServer (l : List Server) (j : ℕ) (f : Server → Server) : List Server :=
  match l, j with
  | [], _ => []
  | s :: rest, 0 => f s :: rest
  | s :: rest, k + 1 => s :: updateServer rest k f

/-- Number of servers currently out of service (`_capacity == 0`). -/
def countDown : List Server → ℕ
  | [] => 0
  | s :: rest => (if s.capacity = 0 then 1 else 0) + countDown rest

/-- Number of servers currently in service (`_capacity != 0`). -/
def countUp : List Server → ℕ
  | [] => 0
  | s :: rest => (if s.capacity = 0 then 0 else 1) + countUp rest

/-- Total number of blocked `request()` calls over all servers. -/
def waitSum : List Server → ℕ
  | [] => 0
  | s :: rest => s.putQueue.length + waitSum rest

/-- Drop one user from a server (the `users.remove` of a release). -/
def decUsers (t : Server) : Server := { t with users := t.users - 1 }

/-- Add one user to a server (the `users.append` of a granted request). -/
def incUsers (t : Server) : Server := { t with users := t.users + 1 }

/-- Append a blocked request (its arrival time) to the put queue. -/
def pushWait (a : ℚ) (t : Server) : Server := { t with putQueue := t.putQueue ++ [a] }

/-- Grant the head of the put queue: one more user, shorter queue. -/
def grantHead (restQ : List ℚ) (t : Server) : Server :=
  { t with users := t.users - 1 + 1, putQueue := restQ }

/-- Force the raw capacity to 0 (`server._capacity = 0`). -/
def takeDown (t : Server) : Server := { t with capacity := 0 }

/-- Restore the raw capacity to 1 (`server._capacity = 1`). -/
def restore (t : Server) : Server := { t with capacity := 1 }

/-- Releasing server `j` on exit of the `with server.request()` block: the
user count drops by one, and the resource put queue is retriggered — the
oldest blocked request is granted when the capacity now allows it, which
resumes that request handler at the current time. -/
def releaseServer (st : Sim) (j : ℕ) : Sim :=
  match serverAt st.servers j with
  | none => st
  | some s =>
    match s.putQueue with
    | [] =>
      { st with servers := updateServer st.servers j decUsers }
    | a :: restQ =>
      if s.users - 1 < s.capacity then
        let st := { st with servers := updateServer st.servers j (grantHead restQ) }
        sched st 0 1 (.handlerGranted j a)
      else
        { st with servers := updateServer st.servers j decUsers }

/-- Execute the continuation of one fired event.  `dur n` is the result of
the `n`-th `random_value` call of the run and `ch n` the raw index of the
`n`-th `random.choice(self.servers)` call. -/
def exec (dur : ℕ → ℚ) (ch : ℕ → ℕ) (tg : Target) (st : Sim) : Sim :=
  match tg with
  | .genStart =>
    -- first step of generate_requests: count the request, draw the
    -- interarrival time, suspend.
    let st := { st with total := st.total + 1, genStarted := true }
    let d := dur st.durIdx
    let st := { st with durIdx := st.durIdx + 1 }
    sched st d 1 .genResume
  | .genResume =>
    -- the interarrival timeout fired: spawn a request handler (urgent, at
    -- the current time), then loop: count the next request, draw, suspend.
    let st := sched { st with spawned := st.spawned + 1 } 0 0 .handlerStart
    let st := { st with total := st.total + 1 }
    let d := dur st.durIdx
    let st := { st with durIdx := st.durIdx + 1 }
    sched st d 1 .genResume
  | .handlerStart =>
    -- first step of process_request: scan for a server with no users.
    match scanServers st.servers with
    | none => { st with failed := st.failed + 1 }
    | some (j, s) =>
      if s.users < s.capacity then
        -- request() grants immediately; the handler resumes at the same
        -- time once the grant event is processed.
        let st := { st with servers := updateServer st.servers j incUsers }
        sched st 0 1 (.handlerGranted j st.now)
      else
        -- a request on a server whose capacity was forced to 0 blocks in
        -- the resource put queue.
        { st with servers := updateServer st.servers j (pushWait st.now) }
  | .handlerGranted j arrival =>
    -- draw the processing time and suspend for it.
    let d := dur st.durIdx
    let st := { st with durIdx := st.durIdx + 1 }
    sched st d 1 (.handlerDone j arrival)
  | .handlerDone j arrival =>
    -- the processing timeout fired: record completion and latency, then
    -- release the server on exit of the with-block.
    let st := { st with
      completed := st.completed + 1
      latency := st.latency ++ [st.now - arrival] }
    releaseServer st j
  | .failStart =>
    -- first step of server_failures: draw the time to failure, suspend.
    let d := dur st.durIdx
    let st := { st with durIdx := st.durIdx + 1 }
    sched st d 1 .failResume
  | .failResume =>
    -- choose a server uniformly; if it has no users, force its capacity
    -- to 0, draw a recovery time and suspend; otherwise skip this draw
    -- and wait for the next failure.
    let idx := ch st.chIdx % st.servers.length
    let st := { st with chIdx := st.chIdx + 1 }
    match serverAt st.servers idx with
    | some s =>
      if s.users = 0 then
        let st := { st with
          servers := updateServer st.servers idx takeDown
          available := st.available - 1 }
        let d := dur st.durIdx
        let st := { st with durIdx := st.durIdx + 1 }
        sched st d 1 (.recoveryResume idx)
      else
        let d := dur st.durIdx
        let st := { st with durIdx := st.durIdx + 1 }
        sched st d 1 .failResume
    | none =>
      -- empty server pool: random.choice would raise; the failure process
      -- makes no further state change.
      let d := dur st.durIdx
      let st := { st with durIdx := st.durIdx + 1 }
      sched st d 1 .failResume
  | .recoveryResume j =>
    -- the recovery timeout fired: restore the capacity, then loop.
    let st := { st with
      servers := updateServer st.servers j restore
      available := st.available + 1 }
    let d := dur st.durIdx
    let st := { st with durIdx := st.durIdx + 1 }
    sched st d 1 .failResume

/-- Process the earliest pending event: set the clock to its time and run
its continuation (`env.step`).  With no pending events this is the
identity. -/
def step (dur : ℕ → ℚ) (ch : ℕ → ℕ) (st : Sim) : Sim :=
  match popMin st.queue with
  | none => st
  | some (e, rest) => exec dur ch e.target { st with queue := rest, now := e.time }

/-- Iterate `step` `k` times. -/
def stepIter (dur : ℕ → ℚ) (ch : ℕ → ℕ) : ℕ → Sim → Sim
  | 0, st => st
  | k + 1, st => stepIter dur ch k (step dur ch st)

/-- `WebServiceModel.__init__`: `num_servers` fresh single-capacity
servers (`range` semantics: none when `num_servers ≤ 0`), all metric
fields zeroed, `available_servers` set to the raw `num_servers`, and the
`generate_requests` and `server_failures` processes scheduled for
immediate start in that order. -/
def initSim (p : Params) : Sim :=
  { now := 0
    queue := [⟨0, 0, 0, .genStart⟩, ⟨0, 0, 1, .failStart⟩]
    nextEid := 2
    servers := List.replicate p.num_servers.toNat ⟨1, 0, []⟩
    total := 0
    completed := 0
    failed := 0
    latency := []
    available := p.num_servers
    durIdx := 0
    chIdx := 0
    spawned := 0
    genStarted := false }

/-- The state after construction and `k` processed events. -/
def simSteps (dur : ℕ → ℚ) (ch : ℕ → ℕ) (p : Params) (k : ℕ) : Sim :=
  stepIter dur ch k (initSim p)

/-- `env.run(until=t)`: keep processing events due strictly before `t`
(up to `fuel` of them), then set the clock to `t`. -/
def runUntil (dur : ℕ → ℚ) (ch : ℕ → ℕ) (t : ℚ) : ℕ → Sim → Sim
  | 0, st => { st with now := t }
  | fuel + 1, st =>
    match popMin st.queue with
    | none => { st with now := t }
    | some (e, _) =>
      if e.time < t then runUntil dur ch t fuel (step dur ch st)
      else { st with now := t }

/-- The snapshot returned by `get_metrics`. -/
structure Metrics where
  total_requests : ℕ
  completed_requests : ℕ
  failed_requests : ℕ
  avg_latency : ℚ
  available_servers : ℤ
deriving DecidableEq

/-- `WebServiceModel.get_metrics`. -/
def get_metrics (st : Sim) : Metrics :=
  { total_requests := st.total
    completed_requests := st.completed
    failed_requests := st.failed
    avg_latency := if st.latency = [] then 0 else st.latency.sum / st.latency.length
    available_servers := st.available }

/-! ## Basic lemmas about the queue and the server pool -/

theorem serverAt_nil (j : ℕ) : serverAt [] j = none := by
  cases j <;> rfl

theorem serverAt_cons_zero (s : Server) (rest : List Server) :
    serverAt (s :: rest) 0 = some s := rfl

theorem serverAt_cons_succ (s : Server) (rest : List Server) (k : ℕ) :
    serverAt (s :: rest) (k + 1) = serverAt rest k := rfl

theorem popMin_none : ∀ {q : List Event}, popMin q = none → q = []
  | [], _ => rfl
  | e :: es, h => by
    rw [popMin] at h
    cases hp : popMin es with
    | none => simp [hp] at h
    | some pr =>
      obtain ⟨m, r⟩ := pr
      simp only [hp] at h
      split at h <;> simp at h

theorem popMin_perm : ∀ {q : List Event} {e : Event} {rest : List Event},
    popMin q = some (e, rest) → q.Perm (e :: rest)
  | [], _, _, h => by cases h
  | a :: as, e, rest, h => by
    rw [popMin] at h
    cases hp : popMin as with
    | none =>
      simp only [hp, Option.some.injEq, Prod.mk.injEq] at h
      obtain ⟨rfl, rfl⟩ := h
      rw [popMin_none hp]
    | some pr =>
      obtain ⟨m, r⟩ := pr
      simp only [hp] at h
      split at h <;> simp only [Option.some.injEq, Prod.mk.injEq] at h <;>
        obtain ⟨rfl, rfl⟩ := h
      · exact List.Perm.refl _
      · exact (List.Perm.cons a (popMin_perm hp)).trans (List.Perm.swap _ a r)

theorem length_updateServer : ∀ (l : List Server) (j : ℕ) (f : Server → Server),
    (updateServer l j f).length = l.length
  | [], _, _ => rfl
  | _ :: rest, 0, f => rfl
  | _ :: rest, k + 1, f => by
    simp only [updateServer, List.length_cons, length_updateServer rest k f]

theorem serverAt_updateServer : ∀ (l : List Server) (j i : ℕ) (f : Server → Server),
    serverAt (updateServer l j f) i =
      if i = j then (serverAt l j).map f else serverAt l i
  | [], j, i, f => by simp [updateServer, serverAt_nil]
  | s :: rest, 0, 0, f => rfl
  | s :: rest, 0, i + 1, f => by simp [updateServer, serverAt_cons_succ]
  | s :: rest, j + 1, 0, f => by simp [updateServer, serverAt_cons_zero]
  | s :: rest, j + 1, i + 1, f => by
    simp only [updateServer, serverAt_cons_succ, serverAt_updateServer rest j i f,
      Nat.add_right_cancel_iff]

theorem updateServer_none : ∀ (l : List Server) (j : ℕ) (f : Server → Server),
    serverAt l j = none → updateServer l j f = l
  | [], _, _, _ => rfl
  | a :: rest, 0, f, h => by rw [serverAt_cons_zero] at h; cases h
  | a :: rest, k + 1, f, h => by
    rw [serverAt_cons_succ] at h
    simp only [updateServer, updateServer_none rest k f h]

theorem countDown_updateServer : ∀ (l : List Server) (j : ℕ) (f : Server → Server) (s : Server),
    serverAt l j = some s →
    countDown (updateServer l j f) + (if s.capacity = 0 then 1 else 0) =
      countDown l + (if (f s).capacity = 0 then 1 else 0)
  | [], j, f, s, h => by rw [serverAt_nil] at h; cases h
  | a :: rest, 0, f, s, h => by
    rw [serverAt_cons_zero] at h
    cases h
    simp only [updateServer, countDown]
    omega
  | a :: rest, k + 1, f, s, h => by
    rw [serverAt_cons_succ] at h
    simp only [updateServer, countDown]
    have := countDown_updateServer rest k f s h
    omega

theorem waitSum_updateServer : ∀ (l : List Server) (j : ℕ) (f : Server → Server) (s : Server),
    serverAt l j = some s →
    waitSum (updateServer l j f) + s.putQueue.length =
      waitSum l + (f s).putQueue.length
  | [], j, f, s, h => by rw [serverAt_nil] at h; cases h
  | a :: rest, 0, f, s, h => by
    rw [serverAt_cons_zero] at h
    cases h
    simp only [updateServer, waitSum]
    omega
  | a :: rest, k + 1, f, s, h => by
    rw [serverAt_cons_succ] at h
    simp only [updateServer, waitSum]
    have := waitSum_updateServer rest k f s h
    omega

theorem countDown_pos : ∀ (l : List Server) (j : ℕ) (s : Server),
    serverAt l j = some s → s.capacity = 0 → 0 < countDown l
  | [], j, s, h, _ => by rw [serverAt_nil] at h; cases h
  | a :: rest, 0, s, h, hc => by
    rw [serverAt_cons_zero] at h
    cases h
    simp only [countDown]
    rw [if_pos hc]
    omega
  | a :: rest, k + 1, s, h, hc => by
    rw [serverAt_cons_succ] at h
    have := countDown_pos rest k s h hc
    simp only [countDown]
    omega

theorem countDown_le_length : ∀ l : List Server, countDown l ≤ l.length
  | [] => Nat.le_refl 0
  | a :: rest => by
    simp only [countDown, List.length_cons]
    have := countDown_le_length rest
    split <;> omega

theorem countUp_add_countDown : ∀ l : List Server, countUp l + countDown l = l.length
  | [] => rfl
  | a :: rest => by
    simp only [countUp, countDown, List.length_cons]
    have := countUp_add_countDown rest
    split <;> omega

theorem scanServers_some : ∀ (l : List Server) (j : ℕ) (s : Server),
    scanServers l = some (j, s) → serverAt l j = some s ∧ s.users = 0
  | [], j, s, h => by cases h
  | a :: rest, j, s, h => by
    rw [scanServers] at h
    by_cases ha : a.users = 0
    · rw [if_pos ha] at h
      simp only [Option.some.injEq, Prod.mk.injEq] at h
      obtain ⟨rfl, rfl⟩ := h
      exact ⟨serverAt_cons_zero a rest, ha⟩
    · rw [if_neg ha] at h
      cases hr : scanServers rest with
      | none => rw [hr] at h; cases h
      | some pr =>
        obtain ⟨j', s'⟩ := pr
        rw [hr] at h
        simp only [Option.map_some', Option.some.injEq, Prod.mk.injEq] at h
        obtain ⟨rfl, rfl⟩ := h
        have ih := scanServers_some rest j' s' hr
        exact ⟨by rw [serverAt_cons_succ]; exact ih.1, ih.2⟩

theorem scanServers_some_min : ∀ (l : List Server) (j : ℕ) (s : Server),
    scanServers l = some (j, s) →
    ∀ i t, i < j → serverAt l i = some t → t.users ≠ 0
  | [], j, s, h => by cases h
  | a :: rest, j, s, h => by
    rw [scanServers] at h
    by_cases ha : a.users = 0
    · rw [if_pos ha] at h
      simp only [Option.some.injEq, Prod.mk.injEq] at h
      obtain ⟨rfl, rfl⟩ := h
      intro i t hi
      omega
    · rw [if_neg ha] at h
      cases hr : scanServers rest with
      | none => rw [hr] at h; cases h
      | some pr =>
        obtain ⟨j', s'⟩ := pr
        rw [hr] at h
        simp only [Option.map_some', Option.some.injEq, Prod.mk.injEq] at h
        obtain ⟨rfl, rfl⟩ := h
        intro i t hi hat
        cases i with
        | zero => rw [serverAt_cons_zero] at hat; cases hat; exact ha
        | succ i' =>
          rw [serverAt_cons_succ] at hat
          exact scanServers_some_min rest j' s' hr i' t (by omega) hat

theorem scanServers_none : ∀ (l : List Server),
    scanServers l = none → ∀ i s, serverAt l i = some s → s.users ≠ 0
  | [], _, i, s, h => by rw [serverAt_nil] at h; cases h
  | a :: rest, h, i, s, hat => by
    rw [scanServers] at h
    by_cases ha : a.users = 0
    · rw [if_pos ha] at h; cases h
    · rw [if_neg ha] at h
      cases i with
      | zero => rw [serverAt_cons_zero] at hat; cases hat; exact ha
      | succ i' =>
        rw [serverAt_cons_succ] at hat
        cases hr : scanServers rest with
        | none => exact scanServers_none rest hr i' s hat
        | some pr => rw [hr] at h; cases h

/-! ## Invariants

Two inductive invariants over reachable states: `InvCount` relates the
request counters to the pending request handlers, `InvAvail` relates
`available_servers` to the server pool and the unique failure-process
continuation in the queue. -/

/-- Is this continuation part of a `process_request` handler process? -/
def isHandlerTg : Target → Bool
  | .handlerStart => true
  | .handlerGranted _ _ => true
  | .handlerDone _ _ => true
  | _ => false

/-- Is this continuation part of the `server_failures` process? -/
def isFailTg : Target → Bool
  | .failStart => true
  | .failResume => true
  | .recoveryResume _ => true
  | _ => false

/-- Number of request-handler continuations pending in the event queue. -/
def hCount (q : List Event) : ℕ := q.countP (fun ev => isHandlerTg ev.target)

/-- The failure-process continuations pending in the event queue. -/
def failList (q : List Event) : List Event := q.filter (fun ev => isFailTg ev.target)

/-- Request handlers that have been spawned but not yet terminated: those
with a pending event plus those blocked in some resource put queue. -/
def pendingHandlers (st : Sim) : ℕ := hCount st.queue + waitSum st.servers

/-- Relation between the unique pending failure-process continuation and
the server pool: while the process is between failures no server is down;
while it waits for the recovery of server `j`, exactly that server is
down. -/
def failOk : Target → List Server → Prop
  | .failStart, l => countDown l = 0
  | .failResume, l => countDown l = 0
  | .recoveryResume j, l =>
      (∃ s, serverAt l j = some s ∧ s.capacity = 0) ∧ countDown l = 1
  | _, _ => False

/-- Is this continuation part of the `generate_requests` process? -/
def isGenTg : Target → Bool
  | .genStart => true
  | .genResume => true
  | _ => false

/-- The arrival-generator continuations pending in the event queue. -/
def genList (q : List Event) : List Event := q.filter (fun ev => isGenTg ev.target)

/-- The unique pending generator continuation determines whether the
generator has run its first step. -/
def genOk : Target → Bool → Prop
  | .genStart, b => b = false
  | .genResume, b => b = true
  | _, _ => False

/-- One when the generator has started, zero before. -/
def genFlag : Bool → ℕ
  | true => 1
  | false => 0

/-- Counting invariant: every spawned handler is pending, completed or
failed, and `total_requests` exceeds the spawn count by exactly one once
the arrival generator has started. -/
structure InvCount (st : Sim) : Prop where
  bal : st.completed + st.failed + pendingHandlers st = st.spawned
  tot : st.total = st.spawned + genFlag st.genStarted
  gen : ∃ e, genList st.queue = [e] ∧ genOk e.target st.genStarted

/-- Availability invariant for a pool of `n` servers: the pool size is
fixed, `available_servers` is `n` minus the number of down servers, and
the queue holds exactly one failure-process continuation, consistent with
the down servers. -/
structure InvAvail (n : ℕ) (st : Sim) : Prop where
  len : st.servers.length = n
  avail : st.available = (n : ℤ) - (countDown st.servers : ℤ)
  fail1 : ∃ e, failList st.queue = [e] ∧ failOk e.target st.servers

theorem hCount_append (q q2 : List Event) : hCount (q ++ q2) = hCount q + hCount q2 := by
  simp [hCount, List.countP_append]

theorem hCount_cons (ev : Event) (q : List Event) :
    hCount (ev :: q) = (if isHandlerTg ev.target then 1 else 0) + hCount q := by
  simp [hCount, List.countP_cons]
  omega

theorem hCount_nil : hCount [] = 0 := rfl

theorem failList_append (q q2 : List Event) :
    failList (q ++ q2) = failList q ++ failList q2 := by
  simp [failList, List.filter_append]

theorem failList_cons (ev : Event) (q : List Event) :
    failList (ev :: q) = if isFailTg ev.target then ev :: failList q else failList q := by
  simp [failList, List.filter_cons]

theorem failList_nil : failList [] = [] := rfl

theorem hCount_popMin {q : List Event} {e : Event} {rest : List Event}
    (h : popMin q = some (e, rest)) :
    hCount q = hCount rest + (if isHandlerTg e.target then 1 else 0) := by
  have hp := (popMin_perm h).countP_eq (fun ev => isHandlerTg ev.target)
  simp only [hCount, hp, List.countP_cons]

theorem failList_popMin {q : List Event} {e : Event} {rest : List Event}
    (h : popMin q = some (e, rest)) :
    (failList q).Perm (if isFailTg e.target then e :: failList rest else failList rest) := by
  have hp := (popMin_perm h).filter (fun ev => isFailTg ev.target)
  simp only [failList]
  by_cases hf : isFailTg e.target <;> simpa [List.filter_cons, hf] using hp

theorem genList_append (q q2 : List Event) : genList (q ++ q2) = genList q ++ genList q2 := by
  simp [genList, List.filter_append]

theorem genList_cons (ev : Event) (q : List Event) :
    genList (ev :: q) = if isGenTg ev.target then ev :: genList q else genList q := by
  simp [genList, List.filter_cons]

theorem genList_nil : genList [] = [] := rfl

theorem genList_popMin {q : List Event} {e : Event} {rest : List Event}
    (h : popMin q = some (e, rest)) :
    (genList q).Perm (if isGenTg e.target then e :: genList rest else genList rest) := by
  have hp := (popMin_perm h).filter (fun ev => isGenTg ev.target)
  simp only [genList]
  by_cases hf : isGenTg e.target <;> simpa [List.filter_cons, hf] using hp

theorem singleton_of_perm_singleton {l : List Event} {e : Event}
    (h : l.Perm [e]) : l = [e] := List.perm_singleton.mp h

theorem filter_popMin_of_true {f : Event → Bool} {q : List Event} {e g : Event}
    {rest : List Event} (hp : popMin q = some (e, rest)) (hg : q.filter f = [g])
    (he : f e = true) : e = g ∧ rest.filter f = [] := by
  have hperm := (popMin_perm hp).filter f
  rw [hg, List.filter_cons, if_pos he] at hperm
  have hcons := List.perm_singleton.mp hperm.symm
  injection hcons with h1 h2
  exact ⟨h1, h2⟩

theorem filter_popMin_of_false {f : Event → Bool} {q : List Event} {e g : Event}
    {rest : List Event} (hp : popMin q = some (e, rest)) (hg : q.filter f = [g])
    (he : f e = false) : rest.filter f = [g] := by
  have hperm := (popMin_perm hp).filter f
  rw [hg, List.filter_cons, he] at hperm
  simp only [Bool.false_eq_true, if_false] at hperm
  exact singleton_of_perm_singleton hperm.symm

theorem step_invCount (dur : ℕ → ℚ) (ch : ℕ → ℕ) (st : Sim) (h : InvCount st) :
    InvCount (step dur ch st) := by
  cases hp : popMin st.queue with
  | none => simpa only [step, hp] using h
  | some pr =>
    obtain ⟨e, rest⟩ := pr
    obtain ⟨bal, tot, g, hg, hgok⟩ := h
    have hc := hCount_popMin hp
    simp only [pendingHandlers] at bal
    simp only [step, hp]
    cases hter : e.target with
    | genStart =>
      rw [hter] at hc
      simp [isHandlerTg] at hc
      obtain ⟨rfl, hrest⟩ := filter_popMin_of_true hp hg (by rw [hter]; rfl)
      replace hrest : genList rest = [] := hrest
      rw [hter] at hgok
      simp only [genOk] at hgok
      simp only [hgok, genFlag] at tot
      refine ⟨?_, ?_, ?_⟩
      · simp [exec, sched, pendingHandlers, hCount_append, hCount_cons, hCount_nil, isHandlerTg] <;> omega
      · simp [exec, sched, genFlag] <;> omega
      · refine ⟨⟨e.time + dur st.durIdx, 1, st.nextEid, .genResume⟩, ?_, ?_⟩
        · simp [exec, sched, genList_append, genList_cons, genList_nil, isGenTg, hrest]
        · simp [exec, sched, genOk]
    | genResume =>
      rw [hter] at hc
      simp [isHandlerTg] at hc
      obtain ⟨rfl, hrest⟩ := filter_popMin_of_true hp hg (by rw [hter]; rfl)
      replace hrest : genList rest = [] := hrest
      rw [hter] at hgok
      simp only [genOk] at hgok
      simp only [hgok, genFlag] at tot
      refine ⟨?_, ?_, ?_⟩
      · simp [exec, sched, pendingHandlers, hCount_append, hCount_cons, hCount_nil, isHandlerTg] <;> omega
      · simp [exec, sched, genFlag, hgok] <;> omega
      · refine ⟨⟨e.time + dur st.durIdx, 1, st.nextEid + 1, .genResume⟩, ?_, ?_⟩
        · simp [exec, sched, genList_append, genList_cons, genList_nil, isGenTg, hrest]
        · simp [exec, sched, genOk, hgok]
    | handlerStart =>
      rw [hter] at hc
      simp [isHandlerTg] at hc
      have hrest := filter_popMin_of_false hp hg (by rw [hter]; rfl)
      replace hrest : genList rest = [g] := hrest
      cases hscan : scanServers st.servers with
      | none =>
        refine ⟨?_, ?_, ?_⟩
        · simp [exec, hscan, pendingHandlers] <;> omega
        · simpa [exec, hscan] using tot
        · exact ⟨g, by simp [exec, hscan, hrest], by simpa [exec, hscan] using hgok⟩
      | some pr2 =>
        obtain ⟨j, s⟩ := pr2
        have hat := (scanServers_some st.servers j s hscan).1
        by_cases hfree : s.users < s.capacity
        · have hws := waitSum_updateServer st.servers j incUsers s hat
          simp only [incUsers] at hws
          refine ⟨?_, ?_, ?_⟩
          · simp [exec, hscan, hfree, sched, pendingHandlers, hCount_append, hCount_cons, hCount_nil, isHandlerTg]
              <;> omega
          · simpa [exec, hscan, hfree, sched] using tot
          · exact ⟨g, by simp [exec, hscan, hfree, sched, genList_append, genList_cons,
              genList_nil, isGenTg, hrest], by simpa [exec, hscan, hfree, sched] using hgok⟩
        · have hws := waitSum_updateServer st.servers j (pushWait e.time) s hat
          simp only [pushWait, List.length_append, List.length_singleton] at hws
          refine ⟨?_, ?_, ?_⟩
          · simp [exec, hscan, hfree, pendingHandlers] <;> omega
          · simpa [exec, hscan, hfree] using tot
          · exact ⟨g, by simp [exec, hscan, hfree, hrest],
              by simpa [exec, hscan, hfree] using hgok⟩
    | handlerGranted j a =>
      rw [hter] at hc
      simp [isHandlerTg] at hc
      have hrest := filter_popMin_of_false hp hg (by rw [hter]; rfl)
      replace hrest : genList rest = [g] := hrest
      refine ⟨?_, ?_, ?_⟩
      · simp [exec, sched, pendingHandlers, hCount_append, hCount_cons, hCount_nil, isHandlerTg] <;> omega
      · simpa [exec, sched] using tot
      · exact ⟨g, by simp [exec, sched, genList_append, genList_cons, genList_nil, isGenTg,
          hrest], by simpa [exec, sched] using hgok⟩
    | handlerDone j a =>
      rw [hter] at hc
      simp [isHandlerTg] at hc
      have hrest := filter_popMin_of_false hp hg (by rw [hter]; rfl)
      replace hrest : genList rest = [g] := hrest
      cases hat : serverAt st.servers j with
      | none =>
        refine ⟨?_, ?_, ?_⟩
        · simp [exec, releaseServer, hat, pendingHandlers] <;> omega
        · simpa [exec, releaseServer, hat] using tot
        · exact ⟨g, by simp [exec, releaseServer, hat, hrest],
            by simpa [exec, releaseServer, hat] using hgok⟩
      | some s =>
        cases hpq : s.putQueue with
        | nil =>
          have hws := waitSum_updateServer st.servers j decUsers s hat
          simp only [decUsers] at hws
          refine ⟨?_, ?_, ?_⟩
          · simp [exec, releaseServer, hat, hpq, pendingHandlers] <;> omega
          · simpa [exec, releaseServer, hat, hpq] using tot
          · exact ⟨g, by simp [exec, releaseServer, hat, hpq, hrest],
              by simpa [exec, releaseServer, hat, hpq] using hgok⟩
        | cons w restQ =>
          by_cases hfree : s.users - 1 < s.capacity
          · have hws := waitSum_updateServer st.servers j (grantHead restQ) s hat
            simp only [grantHead, hpq, List.length_cons] at hws
            refine ⟨?_, ?_, ?_⟩
            · simp [exec, releaseServer, hat, hpq, hfree, sched, pendingHandlers,
                hCount_append, hCount_cons, hCount_nil, isHandlerTg] <;> omega
            · simpa [exec, releaseServer, hat, hpq, hfree, sched] using tot
            · exact ⟨g, by simp [exec, releaseServer, hat, hpq, hfree, sched, genList_append,
                genList_cons, genList_nil, isGenTg, hrest],
                by simpa [exec, releaseServer, hat, hpq, hfree, sched] using hgok⟩
          · have hws := waitSum_updateServer st.servers j decUsers s hat
            simp only [decUsers] at hws
            refine ⟨?_, ?_, ?_⟩
            · simp [exec, releaseServer, hat, hpq, hfree, pendingHandlers] <;> omega
            · simpa [exec, releaseServer, hat, hpq, hfree] using tot
            · exact ⟨g, by simp [exec, releaseServer, hat, hpq, hfree, hrest],
                by simpa [exec, releaseServer, hat, hpq, hfree] using hgok⟩
    | failStart =>
      rw [hter] at hc
      simp [isHandlerTg] at hc
      have hrest := filter_popMin_of_false hp hg (by rw [hter]; rfl)
      replace hrest : genList rest = [g] := hrest
      refine ⟨?_, ?_, ?_⟩
      · simp [exec, sched, pendingHandlers, hCount_append, hCount_cons, hCount_nil, isHandlerTg] <;> omega
      · simpa [exec, sched] using tot
      · exact ⟨g, by simp [exec, sched, genList_append, genList_cons, genList_nil, isGenTg,
          hrest], by simpa [exec, sched] using hgok⟩
    | failResume =>
      rw [hter] at hc
      simp [isHandlerTg] at hc
      have hrest := filter_popMin_of_false hp hg (by rw [hter]; rfl)
      replace hrest : genList rest = [g] := hrest
      cases hat : serverAt st.servers (ch st.chIdx % st.servers.length) with
      | none =>
        refine ⟨?_, ?_, ?_⟩
        · simp [exec, hat, sched, pendingHandlers, hCount_append, hCount_cons, hCount_nil,
            isHandlerTg] <;> omega
        · simpa [exec, hat, sched] using tot
        · exact ⟨g, by simp [exec, hat, sched, genList_append, genList_cons, genList_nil,
            isGenTg, hrest], by simpa [exec, hat, sched] using hgok⟩
      | some s =>
        have hws := waitSum_updateServer st.servers (ch st.chIdx % st.servers.length)
          takeDown s hat
        simp only [takeDown] at hws
        by_cases hidle : s.users = 0
        · refine ⟨?_, ?_, ?_⟩
          · simp [exec, hat, hidle, sched, pendingHandlers, hCount_append, hCount_cons,
              hCount_nil, isHandlerTg] <;> omega
          · simpa [exec, hat, hidle, sched] using tot
          · exact ⟨g, by simp [exec, hat, hidle, sched, genList_append, genList_cons,
              genList_nil, isGenTg, hrest], by simpa [exec, hat, hidle, sched] using hgok⟩
        · refine ⟨?_, ?_, ?_⟩
          · simp [exec, hat, hidle, sched, pendingHandlers, hCount_append, hCount_cons,
              hCount_nil, isHandlerTg] <;> omega
          · simpa [exec, hat, hidle, sched] using tot
          · exact ⟨g, by simp [exec, hat, hidle, sched, genList_append, genList_cons,
              genList_nil, isGenTg, hrest], by simpa [exec, hat, hidle, sched] using hgok⟩
    | recoveryResume j =>
      rw [hter] at hc
      simp [isHandlerTg] at hc
      have hrest := filter_popMin_of_false hp hg (by rw [hter]; rfl)
      replace hrest : genList rest = [g] := hrest
      have hws : waitSum (updateServer st.servers j restore) = waitSum st.servers := by
        cases hat : serverAt st.servers j with
        | none => rw [updateServer_none st.servers j restore hat]
        | some s =>
          have := waitSum_updateServer st.servers j restore s hat
          simp only [restore] at this
          omega
      refine ⟨?_, ?_, ?_⟩
      · simp [exec, sched, pendingHandlers, hCount_append, hCount_cons, hCount_nil, isHandlerTg] <;> omega
      · simpa [exec, sched] using tot
      · exact ⟨g, by simp [exec, sched, genList_append, genList_cons, genList_nil, isGenTg,
          hrest], by simpa [exec, sched] using hgok⟩

theorem countDown_update_congr (l : List Server) (k : ℕ) (f : Server → Server)
    (hcap : ∀ t, (f t).capacity = t.capacity) :
    countDown (updateServer l k f) = countDown l := by
  cases hat : serverAt l k with
  | none => rw [updateServer_none l k f hat]
  | some s =>
    have := countDown_updateServer l k f s hat
    rw [hcap s] at this
    omega

theorem failOk_update (tg : Target) (l : List Server) (k : ℕ) (f : Server → Server)
    (hcap : ∀ t, (f t).capacity = t.capacity) (h : failOk tg l) :
    failOk tg (updateServer l k f) := by
  cases tg with
  | failStart => simpa only [failOk, countDown_update_congr l k f hcap] using h
  | failResume => simpa only [failOk, countDown_update_congr l k f hcap] using h
  | recoveryResume j =>
    simp only [failOk] at h ⊢
    obtain ⟨⟨s, hats, hcap0⟩, hcd⟩ := h
    refine ⟨?_, by rwa [countDown_update_congr l k f hcap]⟩
    by_cases hjk : j = k
    · subst hjk
      exact ⟨f s, by rw [serverAt_updateServer, if_pos rfl, hats]; rfl,
        by rw [hcap s]; exact hcap0⟩
    · exact ⟨s, by rw [serverAt_updateServer, if_neg hjk]; exact hats, hcap0⟩
  | genStart => simp only [failOk] at h
  | genResume => simp only [failOk] at h
  | handlerStart => simp only [failOk] at h
  | handlerGranted j a => simp only [failOk] at h
  | handlerDone j a => simp only [failOk] at h

theorem step_invAvail (dur : ℕ → ℚ) (ch : ℕ → ℕ) (n : ℕ) (st : Sim) (h : InvAvail n st) :
    InvAvail n (step dur ch st) := by
  cases hp : popMin st.queue with
  | none => simpa only [step, hp] using h
  | some pr =>
    obtain ⟨e, rest⟩ := pr
    obtain ⟨len, avail, f, hf, hfok⟩ := h
    simp only [step, hp]
    cases hter : e.target with
    | genStart =>
      have hfr := filter_popMin_of_false hp hf (by rw [hter]; rfl)
      replace hfr : failList rest = [f] := hfr
      refine ⟨?_, ?_, ⟨f, ?_, ?_⟩⟩
      · simpa [exec, sched] using len
      · simpa [exec, sched] using avail
      · simp [exec, sched, failList_append, failList_cons, failList_nil, isFailTg, hfr]
      · simpa [exec, sched] using hfok
    | genResume =>
      have hfr := filter_popMin_of_false hp hf (by rw [hter]; rfl)
      replace hfr : failList rest = [f] := hfr
      refine ⟨?_, ?_, ⟨f, ?_, ?_⟩⟩
      · simpa [exec, sched] using len
      · simpa [exec, sched] using avail
      · simp [exec, sched, failList_append, failList_cons, failList_nil, isFailTg, hfr]
      · simpa [exec, sched] using hfok
    | handlerStart =>
      have hfr := filter_popMin_of_false hp hf (by rw [hter]; rfl)
      replace hfr : failList rest = [f] := hfr
      cases hscan : scanServers st.servers with
      | none =>
        refine ⟨?_, ?_, ⟨f, ?_, ?_⟩⟩
        · simpa [exec, hscan] using len
        · simpa [exec, hscan] using avail
        · simp [exec, hscan, hfr]
        · simpa [exec, hscan] using hfok
      | some pr2 =>
        obtain ⟨j, s⟩ := pr2
        by_cases hfree : s.users < s.capacity
        · have hcd := countDown_update_congr st.servers j incUsers (fun t => rfl)
          refine ⟨?_, ?_, ⟨f, ?_, ?_⟩⟩
          · simp [exec, hscan, hfree, sched, length_updateServer]
            exact len
          · simp [exec, hscan, hfree, sched, hcd]
            exact avail
          · simp [exec, hscan, hfree, sched, failList_append, failList_cons, failList_nil,
              isFailTg, hfr]
          · simp only [exec, hscan, hfree, if_pos, sched]
            exact failOk_update f.target st.servers j incUsers (fun t => rfl) hfok
        · have hcd := countDown_update_congr st.servers j (pushWait e.time) (fun t => rfl)
          refine ⟨?_, ?_, ⟨f, ?_, ?_⟩⟩
          · simp [exec, hscan, hfree, length_updateServer]
            exact len
          · simp [exec, hscan, hfree, hcd]
            exact avail
          · simp [exec, hscan, hfree, hfr]
          · simp only [exec, hscan, hfree, if_neg, sched]
            exact failOk_update f.target st.servers j (pushWait e.time) (fun t => rfl) hfok
    | handlerGranted j a =>
      have hfr := filter_popMin_of_false hp hf (by rw [hter]; rfl)
      replace hfr : failList rest = [f] := hfr
      refine ⟨?_, ?_, ⟨f, ?_, ?_⟩⟩
      · simpa [exec, sched] using len
      · simpa [exec, sched] using avail
      · simp [exec, sched, failList_append, failList_cons, failList_nil, isFailTg, hfr]
      · simpa [exec, sched] using hfok
    | handlerDone j a =>
      have hfr := filter_popMin_of_false hp hf (by rw [hter]; rfl)
      replace hfr : failList rest = [f] := hfr
      cases hat : serverAt st.servers j with
      | none =>
        refine ⟨?_, ?_, ⟨f, ?_, ?_⟩⟩
        · simpa [exec, releaseServer, hat] using len
        · simpa [exec, releaseServer, hat] using avail
        · simp [exec, releaseServer, hat, hfr]
        · simpa [exec, releaseServer, hat] using hfok
      | some s =>
        cases hpq : s.putQueue with
        | nil =>
          have hcd := countDown_update_congr st.servers j decUsers (fun t => rfl)
          refine ⟨?_, ?_, ⟨f, ?_, ?_⟩⟩
          · simp [exec, releaseServer, hat, hpq, length_updateServer]
            exact len
          · simp [exec, releaseServer, hat, hpq, hcd]
            exact avail
          · simp [exec, releaseServer, hat, hpq, hfr]
          · simp only [exec, releaseServer, hat, hpq]
            exact failOk_update f.target st.servers j decUsers (fun t => rfl) hfok
        | cons w restQ =>
          by_cases hfree : s.users - 1 < s.capacity
          · have hcd := countDown_update_congr st.servers j (grantHead restQ) (fun t => rfl)
            refine ⟨?_, ?_, ⟨f, ?_, ?_⟩⟩
            · simp [exec, releaseServer, hat, hpq, hfree, sched, length_updateServer]
              exact len
            · simp [exec, releaseServer, hat, hpq, hfree, sched, hcd]
              exact avail
            · simp [exec, releaseServer, hat, hpq, hfree, sched, failList_append,
                failList_cons, failList_nil, isFailTg, hfr]
            · simp only [exec, releaseServer, hat, hpq, hfree, if_pos, sched]
              exact failOk_update f.target st.servers j (grantHead restQ) (fun t => rfl) hfok
          · have hcd := countDown_update_congr st.servers j decUsers (fun t => rfl)
            refine ⟨?_, ?_, ⟨f, ?_, ?_⟩⟩
            · simp [exec, releaseServer, hat, hpq, hfree, length_updateServer]
              exact len
            · simp [exec, releaseServer, hat, hpq, hfree, hcd]
              exact avail
            · simp [exec, releaseServer, hat, hpq, hfree, hfr]
            · simp only [exec, releaseServer, hat, hpq, hfree, if_neg]
              exact failOk_update f.target st.servers j decUsers (fun t => rfl) hfok
    | failStart =>
      obtain ⟨rfl, hfr⟩ := filter_popMin_of_true hp hf (by rw [hter]; rfl)
      replace hfr : failList rest = [] := hfr
      rw [hter] at hfok
      simp only [failOk] at hfok
      refine ⟨?_, ?_, ?_⟩
      · simpa [exec, sched] using len
      · simpa [exec, sched] using avail
      · refine ⟨⟨e.time + dur st.durIdx, 1, st.nextEid, .failResume⟩, ?_, ?_⟩
        · simp [exec, sched, failList_append, failList_cons, failList_nil, isFailTg, hfr]
        · simpa [exec, sched, failOk] using hfok
    | failResume =>
      obtain ⟨rfl, hfr⟩ := filter_popMin_of_true hp hf (by rw [hter]; rfl)
      replace hfr : failList rest = [] := hfr
      rw [hter] at hfok
      simp only [failOk] at hfok
      cases hat : serverAt st.servers (ch st.chIdx % st.servers.length) with
      | none =>
        refine ⟨?_, ?_, ?_⟩
        · simpa [exec, hat, sched] using len
        · simpa [exec, hat, sched] using avail
        · refine ⟨⟨e.time + dur st.durIdx, 1, st.nextEid, .failResume⟩, ?_, ?_⟩
          · simp [exec, hat, sched, failList_append, failList_cons, failList_nil, isFailTg,
              hfr]
          · simpa [exec, hat, sched, failOk] using hfok
      | some s =>
        by_cases hidle : s.users = 0
        · have hcap : s.capacity ≠ 0 := by
            intro hc0
            have := countDown_pos st.servers (ch st.chIdx % st.servers.length) s hat hc0
            omega
          have hcd := countDown_updateServer st.servers (ch st.chIdx % st.servers.length)
            takeDown s hat
          rw [if_neg hcap] at hcd
          simp [takeDown] at hcd
          refine ⟨?_, ?_, ?_⟩
          · simp [exec, hat, hidle, sched, length_updateServer]
            exact len
          · simp [exec, hat, hidle, sched]
            omega
          · refine ⟨⟨e.time + dur st.durIdx, 1, st.nextEid,
                .recoveryResume (ch st.chIdx % st.servers.length)⟩, ?_, ?_⟩
            · simp [exec, hat, hidle, sched, failList_append, failList_cons, failList_nil,
                isFailTg, hfr]
            · simp only [exec, hat, hidle, if_pos, sched, failOk]
              constructor
              · refine ⟨takeDown s, ?_, rfl⟩
                rw [serverAt_updateServer, if_pos rfl, hat]
                rfl
              · omega
        · refine ⟨?_, ?_, ?_⟩
          · simpa [exec, hat, hidle, sched] using len
          · simpa [exec, hat, hidle, sched] using avail
          · refine ⟨⟨e.time + dur st.durIdx, 1, st.nextEid, .failResume⟩, ?_, ?_⟩
            · simp [exec, hat, hidle, sched, failList_append, failList_cons, failList_nil,
                isFailTg, hfr]
            · simpa [exec, hat, hidle, sched, failOk] using hfok
    | recoveryResume j =>
      obtain ⟨rfl, hfr⟩ := filter_popMin_of_true hp hf (by rw [hter]; rfl)
      replace hfr : failList rest = [] := hfr
      rw [hter] at hfok
      simp only [failOk] at hfok
      obtain ⟨⟨s, hats, hcap0⟩, hcd1⟩ := hfok
      have hcd := countDown_updateServer st.servers j restore s hats
      rw [if_pos hcap0] at hcd
      simp [restore] at hcd
      refine ⟨?_, ?_, ?_⟩
      · simp [exec, sched, length_updateServer]
        exact len
      · simp [exec, sched]
        omega
      · refine ⟨⟨e.time + dur st.durIdx, 1, st.nextEid, .failResume⟩, ?_, ?_⟩
        · simp [exec, sched, failList_append, failList_cons, failList_nil, isFailTg, hfr]
        · simp only [exec, sched, failOk]
          omega

/-! ## Invariants hold on all reachable states -/

theorem countDown_replicate (k : ℕ) :
    countDown (List.replicate k ⟨1, 0, []⟩) = 0 := by
  induction k with
  | zero => rfl
  | succ m ih => simpa [List.replicate_succ, countDown] using ih

theorem waitSum_replicate (k : ℕ) :
    waitSum (List.replicate k ⟨1, 0, []⟩) = 0 := by
  induction k with
  | zero => rfl
  | succ m ih => simpa [List.replicate_succ, waitSum] using ih

theorem invCount_init (p : Params) : InvCount (initSim p) := by
  refine ⟨?_, rfl, ⟨⟨0, 0, 0, .genStart⟩, rfl, rfl⟩⟩
  simp [initSim, pendingHandlers, hCount_cons, hCount_nil, isHandlerTg, waitSum_replicate,
    hCount]

theorem invAvail_init (p : Params) (h : 0 ≤ p.num_servers) :
    InvAvail p.num_servers.toNat (initSim p) := by
  refine ⟨?_, ?_, ⟨⟨0, 0, 1, .failStart⟩, rfl, ?_⟩⟩
  · simp [initSim]
  · simp [initSim, countDown_replicate]
    omega
  · simp [failOk, initSim, countDown_replicate]

theorem stepIter_invCount (dur : ℕ → ℚ) (ch : ℕ → ℕ) (k : ℕ) (st : Sim)
    (h : InvCount st) : InvCount (stepIter dur ch k st) := by
  induction k generalizing st with
  | zero => exact h
  | succ m ih => exact ih _ (step_invCount dur ch st h)

theorem stepIter_invAvail (dur : ℕ → ℚ) (ch : ℕ → ℕ) (n : ℕ) (k : ℕ) (st : Sim)
    (h : InvAvail n st) : InvAvail n (stepIter dur ch k st) := by
  induction k generalizing st with
  | zero => exact h
  | succ m ih => exact ih _ (step_invAvail dur ch n st h)

theorem stepIter_succ_right (dur : ℕ → ℚ) (ch : ℕ → ℕ) (k : ℕ) (st : Sim) :
    stepIter dur ch (k + 1) st = step dur ch (stepIter dur ch k st) := by
  induction k generalizing st with
  | zero => rfl
  | succ m ih =>
    show stepIter dur ch (m + 1) (step dur ch st) = _
    rw [ih]
    rfl

theorem exec_genStarted_mono (dur : ℕ → ℚ) (ch : ℕ → ℕ) (tg : Target) (st : Sim)
    (h : st.genStarted = true) : (exec dur ch tg st).genStarted = true := by
  cases tg with
  | genStart => simp [exec, sched]
  | genResume => simpa [exec, sched] using h
  | handlerStart =>
    cases hscan : scanServers st.servers with
    | none => simpa [exec, hscan] using h
    | some pr =>
      obtain ⟨j, s⟩ := pr
      by_cases hfree : s.users < s.capacity <;> simpa [exec, hscan, hfree, sched] using h
  | handlerGranted j a => simpa [exec, sched] using h
  | handlerDone j a =>
    cases hat : serverAt st.servers j with
    | none => simpa [exec, releaseServer, hat] using h
    | some s =>
      cases hpq : s.putQueue with
      | nil => simpa [exec, releaseServer, hat, hpq] using h
      | cons w restQ =>
        by_cases hfree : s.users - 1 < s.capacity <;>
          simpa [exec, releaseServer, hat, hpq, hfree, sched] using h
  | failStart => simpa [exec, sched] using h
  | failResume =>
    cases hat : serverAt st.servers (ch st.chIdx % st.servers.length) with
    | none => simpa [exec, hat, sched] using h
    | some s =>
      by_cases hidle : s.users = 0 <;> simpa [exec, hat, hidle, sched] using h
  | recoveryResume j => simpa [exec, sched] using h

theorem genStarted_step (dur : ℕ → ℚ) (ch : ℕ → ℕ) (st : Sim)
    (h : st.genStarted = true) : (step dur ch st).genStarted = true := by
  cases hp : popMin st.queue with
  | none => simpa only [step, hp] using h
  | some pr =>
    obtain ⟨e, rest⟩ := pr
    simp only [step, hp]
    exact exec_genStarted_mono dur ch e.target _ h

theorem simSteps_one_genStarted (dur : ℕ → ℚ) (ch : ℕ → ℕ) (p : Params) :
    (simSteps dur ch p 1).genStarted = true := rfl

theorem simSteps_genStarted (dur : ℕ → ℚ) (ch : ℕ → ℕ) (p : Params) (k : ℕ)
    (h : 1 ≤ k) : (simSteps dur ch p k).genStarted = true := by
  induction k with
  | zero => omega
  | succ m ih =>
    cases Nat.eq_or_lt_of_le h with
    | inl h1 => rw [← h1]; exact simSteps_one_genStarted dur ch p
    | inr h1 =>
      have hm := ih (by omega)
      have : simSteps dur ch p (m + 1) = step dur ch (simSteps dur ch p m) := by
        simp [simSteps, stepIter_succ_right]
      rw [this]
      exact genStarted_step dur ch _ hm

theorem runUntil_eq (dur : ℕ → ℚ) (ch : ℕ → ℕ) (t : ℚ) : ∀ (fuel : ℕ) (st : Sim),
    ∃ m, runUntil dur ch t fuel st = { stepIter dur ch m st with now := t }
  | 0, st => ⟨0, rfl⟩
  | fuel + 1, st => by
    cases hp : popMin st.queue with
    | none => exact ⟨0, by simp only [runUntil, hp, stepIter]⟩
    | some pr =>
      obtain ⟨e, rest⟩ := pr
      by_cases hlt : e.time < t
      · obtain ⟨m, hm⟩ := runUntil_eq dur ch t fuel (step dur ch st)
        exact ⟨m + 1, by simp only [runUntil, hp, if_pos hlt, hm]; rfl⟩
      · exact ⟨0, by simp only [runUntil, hp, if_neg hlt, stepIter]⟩

theorem invCount_setNow {st : Sim} {t : ℚ} (h : InvCount st) :
    InvCount { st with now := t } := ⟨h.bal, h.tot, h.gen⟩

theorem invAvail_setNow {n : ℕ} {st : Sim} {t : ℚ} (h : InvAvail n st) :
    InvAvail n { st with now := t } := ⟨h.len, h.avail, h.fail1⟩

theorem runUntil_invCount (dur : ℕ → ℚ) (ch : ℕ → ℕ) (t : ℚ) (fuel : ℕ) (p : Params) :
    InvCount (runUntil dur ch t fuel (initSim p)) := by
  obtain ⟨m, hm⟩ := runUntil_eq dur ch t fuel (initSim p)
  rw [hm]
  exact invCount_setNow (stepIter_invCount dur ch m _ (invCount_init p))

theorem runUntil_invAvail (dur : ℕ → ℚ) (ch : ℕ → ℕ) (t : ℚ) (fuel : ℕ) (p : Params)
    (h : 0 ≤ p.num_servers) :
    InvAvail p.num_servers.toNat (runUntil dur ch t fuel (initSim p)) := by
  obtain ⟨m, hm⟩ := runUntil_eq dur ch t fuel (initSim p)
  rw [hm]
  exact invAvail_setNow (stepIter_invAvail dur ch _ m _ (invAvail_init p h))

theorem invCount_le (st : Sim) (h : InvCount st) :
    st.completed + st.failed ≤ st.total := by
  obtain ⟨bal, tot, -⟩ := h
  cases hgs : st.genStarted <;> rw [hgs] at tot <;> simp only [genFlag] at tot <;> omega

theorem invAvail_consequences (n : ℕ) (st : Sim) (h : InvAvail n st) :
    st.available = (countUp st.servers : ℤ) ∧ 0 ≤ st.available ∧
      st.available ≤ (n : ℤ) := by
  obtain ⟨len, avail, -⟩ := h
  have h1 := countUp_add_countDown st.servers
  have h2 := countDown_le_length st.servers
  rw [len] at h1 h2
  omega

/-! ## Single-transition facts about the failure process and the handler -/

theorem serverAt_update_cap_preserving (l : List Server) (k : ℕ) (f : Server → Server)
    (hcap : ∀ t, (f t).capacity = t.capacity) {j : ℕ} {s s' : Server}
    (h1 : serverAt l j = some s) (h2 : serverAt (updateServer l k f) j = some s')
    (h3 : s.capacity ≠ 0) : s'.capacity ≠ 0 := by
  rw [serverAt_updateServer] at h2
  by_cases hjk : j = k
  · rw [if_pos hjk] at h2
    subst hjk
    rw [h1] at h2
    simp only [Option.map_some', Option.some.injEq] at h2
    rw [← h2, hcap]
    exact h3
  · rw [if_neg hjk, h1] at h2
    simp only [Option.some.injEq] at h2
    rw [← h2]
    exact h3

theorem serverAt_unchanged {l : List Server} {j : ℕ} {s s' : Server}
    (h1 : serverAt l j = some s) (h2 : serverAt l j = some s') : s' = s := by
  rw [h1] at h2
  exact (Option.some.inj h2).symm

theorem exec_down_requires_idle (dur : ℕ → ℚ) (ch : ℕ → ℕ) (tg : Target) (st : Sim)
    (j : ℕ) (s s' : Server) (h1 : serverAt st.servers j = some s)
    (h2 : serverAt (exec dur ch tg st).servers j = some s')
    (hup : s.capacity ≠ 0) (hdown : s'.capacity = 0) : s.users = 0 := by
  cases tg with
  | genStart =>
    simp only [exec, sched] at h2
    exact absurd hdown (by rw [serverAt_unchanged h1 h2]; exact hup)
  | genResume =>
    simp only [exec, sched] at h2
    exact absurd hdown (by rw [serverAt_unchanged h1 h2]; exact hup)
  | handlerStart =>
    cases hscan : scanServers st.servers with
    | none =>
      simp only [exec, hscan] at h2
      exact absurd hdown (by rw [serverAt_unchanged h1 h2]; exact hup)
    | some pr =>
      obtain ⟨k, sk⟩ := pr
      by_cases hfree : sk.users < sk.capacity
      · simp only [exec, hscan, if_pos hfree, sched] at h2
        exact absurd hdown
          (serverAt_update_cap_preserving st.servers k incUsers (fun t => rfl) h1 h2 hup)
      · simp only [exec, hscan, if_neg hfree] at h2
        exact absurd hdown
          (serverAt_update_cap_preserving st.servers k (pushWait st.now) (fun t => rfl)
            h1 h2 hup)
  | handlerGranted k a =>
    simp only [exec, sched] at h2
    exact absurd hdown (by rw [serverAt_unchanged h1 h2]; exact hup)
  | handlerDone k a =>
    cases hat : serverAt st.servers k with
    | none =>
      simp only [exec, releaseServer, hat] at h2
      exact absurd hdown (by rw [serverAt_unchanged h1 h2]; exact hup)
    | some sk =>
      cases hpq : sk.putQueue with
      | nil =>
        simp only [exec, releaseServer, hat, hpq] at h2
        exact absurd hdown
          (serverAt_update_cap_preserving st.servers k decUsers (fun t => rfl) h1 h2 hup)
      | cons w restQ =>
        by_cases hfree : sk.users - 1 < sk.capacity
        · simp only [exec, releaseServer, hat, hpq, if_pos hfree, sched] at h2
          exact absurd hdown
            (serverAt_update_cap_preserving st.servers k (grantHead restQ) (fun t => rfl)
              h1 h2 hup)
        · simp only [exec, releaseServer, hat, hpq, if_neg hfree] at h2
          exact absurd hdown
            (serverAt_update_cap_preserving st.servers k decUsers (fun t => rfl) h1 h2 hup)
  | failStart =>
    simp only [exec, sched] at h2
    exact absurd hdown (by rw [serverAt_unchanged h1 h2]; exact hup)
  | failResume =>
    cases hat : serverAt st.servers (ch st.chIdx % st.servers.length) with
    | none =>
      simp only [exec, hat, sched] at h2
      exact absurd hdown (by rw [serverAt_unchanged h1 h2]; exact hup)
    | some sk =>
      by_cases hidle : sk.users = 0
      · simp only [exec, hat, if_pos hidle, sched] at h2
        rw [serverAt_updateServer] at h2
        by_cases hjk : j = ch st.chIdx % st.servers.length
        · subst hjk
          rw [h1] at hat
          rw [← Option.some.inj hat] at hidle
          exact hidle
        · rw [if_neg hjk] at h2
          exact absurd hdown (by rw [serverAt_unchanged h1 h2]; exact hup)
      · simp only [exec, hat, if_neg hidle, sched] at h2
        exact absurd hdown (by rw [serverAt_unchanged h1 h2]; exact hup)
  | recoveryResume k =>
    simp only [exec, sched] at h2
    rw [serverAt_updateServer] at h2
    by_cases hjk : j = k
    · rw [if_pos hjk] at h2
      subst hjk
      rw [h1] at h2
      simp only [Option.map_some', Option.some.injEq] at h2
      rw [← h2] at hdown
      simp [restore] at hdown
    · rw [if_neg hjk] at h2
      exact absurd hdown (by rw [serverAt_unchanged h1 h2]; exact hup)

theorem exec_failResume_busy_skip (dur : ℕ → ℚ) (ch : ℕ → ℕ) (st : Sim) (s : Server)
    (hat : serverAt st.servers (ch st.chIdx % st.servers.length) = some s)
    (hbusy : s.users ≠ 0) :
    (exec dur ch .failResume st).servers = st.servers ∧
    (exec dur ch .failResume st).available = st.available ∧
    (exec dur ch .failResume st).total = st.total ∧
    (exec dur ch .failResume st).completed = st.completed ∧
    (exec dur ch .failResume st).failed = st.failed ∧
    (exec dur ch .failResume st).latency = st.latency ∧
    (exec dur ch .failResume st).queue =
      st.queue ++ [⟨st.now + dur st.durIdx, 1, st.nextEid, .failResume⟩] := by
  refine ⟨?_, ?_, ?_, ?_, ?_, ?_, ?_⟩ <;> simp [exec, hat, hbusy, sched]

/-! ## Claims -/

/-- The availability test as the specification words it (`isAvailable() =
status == Up && not busy`), for comparison with the scan the source
actually performs.  The source has no such method: up is `capacity != 0`,
busy is `users != 0`. -/
def specIsAvailable (s : Server) : Bool := (s.capacity != 0) && (s.users == 0)

/-- A state with a single out-of-service idle server and one pending
request handler about to run its first step. -/
def stDown : Sim :=
  { now := 0
    queue := [⟨0, 0, 5, .handlerStart⟩]
    nextEid := 6
    servers := [⟨0, 0, []⟩]
    total := 1
    completed := 0
    failed := 0
    latency := []
    available := 0
    durIdx := 0
    chIdx := 0
    spawned := 1
    genStarted := true }

/-- C1, counterexample.  The handler scan of `process_request` checks only
`len(s.users) == 0`, never the capacity: in a state whose only server is
Down (capacity 0) and idle, the scan still selects it — although it does
not satisfy the specification availability test — and the request is not
rejected: `failed_requests` stays 0 and the request blocks in the resource
put queue instead of terminating. -/
theorem C1_counterexample :
    scanServers [⟨0, 0, []⟩] = some (0, ⟨0, 0, []⟩) ∧
    specIsAvailable ⟨0, 0, []⟩ = false ∧
    (step (fun _ => 1) (fun _ => 0) stDown).failed = 0 ∧
    (step (fun _ => 1) (fun _ => 0) stDown).servers = [⟨0, 0, [0]⟩] := by
  refine ⟨by decide, by decide, by decide, by decide⟩

/-- C1, amended.  For every request, the handler scans the servers in
fixed ascending index order and selects the first whose `users` list is
empty (i.e. whose busy flag is false), regardless of its up/down status;
if no server has an empty `users` list, the request is rejected: exactly
`failed_requests` is incremented and the handler terminates immediately,
scheduling nothing and waiting for nothing. -/
theorem C1_amended :
    (∀ (l : List Server) (j : ℕ) (s : Server), scanServers l = some (j, s) →
      serverAt l j = some s ∧ s.users = 0 ∧
      ∀ i t, i < j → serverAt l i = some t → t.users ≠ 0) ∧
    (∀ l : List Server, scanServers l = none →
      ∀ i s, serverAt l i = some s → s.users ≠ 0) ∧
    (∀ (dur : ℕ → ℚ) (ch : ℕ → ℕ) (st : Sim), scanServers st.servers = none →
      exec dur ch .handlerStart st = { st with failed := st.failed + 1 }) := by
  refine ⟨?_, scanServers_none, ?_⟩
  · intro l j s h
    exact ⟨(scanServers_some l j s h).1, (scanServers_some l j s h).2,
      scanServers_some_min l j s h⟩
  · intro dur ch st hscan
    simp [exec, hscan]

/-- A state with a single busy server, for the rejection path. -/
def stBusy : Sim :=
  { now := 0
    queue := []
    nextEid := 0
    servers := [⟨1, 1, []⟩]
    total := 1
    completed := 0
    failed := 0
    latency := []
    available := 1
    durIdx := 0
    chIdx := 0
    spawned := 1
    genStarted := true }

/-- Witness for C1: the scan picks the first idle server (index 1 when
index 0 is busy), and on a state with every server busy the handler step
increments `failed_requests` and terminates. -/
theorem C1_witness :
    scanServers [⟨1, 1, []⟩, ⟨1, 0, []⟩] = some (1, ⟨1, 0, []⟩) ∧
    serverAt [⟨1, 1, []⟩, ⟨1, 0, []⟩] 1 = some ⟨1, 0, []⟩ ∧
    scanServers stBusy.servers = none ∧
    exec (fun _ => 1) (fun _ => 0) .handlerStart stBusy =
      { stBusy with failed := stBusy.failed + 1 } :=
  ⟨by decide, (C1_amended.1 _ 1 _ (by decide)).1, by decide,
    C1_amended.2.2 (fun _ => 1) (fun _ => 0) stBusy (by decide)⟩

/-- A configuration violating every constraint of the specification:
non-positive counts and rates, a custom distribution with empty
`custom_values`. -/
def badParams : Params :=
  { num_servers := 0
    server_processing_time := -1
    queue_timeout := 0
    request_rate := 0
    failure_rate := -2
    recovery_rate := 0
    request_rate_distribution := "custom"
    server_processing_time_distribution := "custom"
    failure_rate_distribution := "custom"
    recovery_time_distribution := "custom"
    custom_values := [] }

/-- C2, counterexample.  `WebServiceModel.__init__` performs no validation
at all: with non-positive `num_servers`, `server_processing_time`,
`request_rate`, `failure_rate` and `recovery_rate` and an empty
`custom_values` under custom distributions, construction does not raise —
it returns a fully initialized model (empty server pool, zeroed counters,
both processes scheduled), observable to the caller. -/
theorem C2_counterexample :
    badParams.num_servers ≤ 0 ∧ badParams.server_processing_time ≤ 0 ∧
    badParams.request_rate ≤ 0 ∧ badParams.failure_rate ≤ 0 ∧
    badParams.recovery_rate ≤ 0 ∧ badParams.custom_values = [] ∧
    badParams.request_rate_distribution = "custom" ∧
    initSim badParams =
      { now := 0
        queue := [⟨0, 0, 0, .genStart⟩, ⟨0, 0, 1, .failStart⟩]
        nextEid := 2
        servers := []
        total := 0
        completed := 0
        failed := 0
        latency := []
        available := 0
        durIdx := 0
        chIdx := 0
        spawned := 0
        genStarted := false } := by
  refine ⟨by decide, by decide, by decide, by decide, by decide, rfl, rfl, by decide⟩

/-- C2, amended.  Construction never validates and never fails: for every
configuration — non-positive values and empty `custom_values` included —
`__init__` returns a fully initialized model with `max(num_servers, 0)`
fresh idle servers, all counters zero, `available_servers` set to the raw
`num_servers`, and the arrival and failure processes scheduled.  No
`InvalidConfig` exists in the source. -/
theorem C2_amended (p : Params) :
    (initSim p).servers = List.replicate p.num_servers.toNat ⟨1, 0, []⟩ ∧
    (initSim p).total = 0 ∧ (initSim p).completed = 0 ∧ (initSim p).failed = 0 ∧
    (initSim p).latency = [] ∧ (initSim p).available = p.num_servers ∧
    (initSim p).queue = [⟨0, 0, 0, .genStart⟩, ⟨0, 0, 1, .failStart⟩] :=
  ⟨rfl, rfl, rfl, rfl, rfl, rfl, rfl⟩

/-- A configuration selecting the custom distribution everywhere, with
`custom_values = [3]`. -/
def pCustom : Params :=
  { num_servers := 1
    server_processing_time := 1
    queue_timeout := 5
    request_rate := 1
    failure_rate := 1
    recovery_rate := 1
    request_rate_distribution := "custom"
    server_processing_time_distribution := "custom"
    failure_rate_distribution := "custom"
    recovery_time_distribution := "custom"
    custom_values := [3] }

/-- C3, counterexample.  No call site of `random_value` passes the
`values` keyword, so a custom draw always uses the default `[1]` and
returns 1: with `custom_values = [3.0]` configured, the processing-time
draw yields 1, a value not in `custom_values` — the configured sequence is
ignored. -/
theorem C3_counterexample :
    pCustom.custom_values = [3] ∧
    processingDraw pCustom ⟨1/2, 0, 0⟩ = Except.ok 1 ∧
    ∀ v ∈ pCustom.custom_values, ((v : ℝ)) ≠ 1 := by
  refine ⟨rfl, ?_, ?_⟩
  · simp [pCustom, processingDraw, random_value]
  · intro v hv
    simp only [pCustom, List.mem_singleton] at hv
    subst hv
    norm_num

/-- C3, amended.  Whenever a custom distribution is selected for any of
the four duration draws, the sampled value is `random.choice([1]) = 1`,
the default of `kwargs.get("values", [1])`: the configured `custom_values`
sequence is never consulted, because no call site passes `values=`. -/
theorem C3_amended (p : Params) (r : Rand) :
    (p.request_rate_distribution = "custom" → interarrivalDraw p r = .ok 1) ∧
    (p.server_processing_time_distribution = "custom" → processingDraw p r = .ok 1) ∧
    (p.failure_rate_distribution = "custom" → timeToFailureDraw p r = .ok 1) ∧
    (p.recovery_time_distribution = "custom" → recoveryDraw p r = .ok 1) := by
  refine ⟨fun hd => ?_, fun hd => ?_, fun hd => ?_, fun hd => ?_⟩ <;>
    simp [interarrivalDraw, processingDraw, timeToFailureDraw, recoveryDraw,
      random_value, hd, Nat.mod_one]

/-- Witness for C3: with the all-custom configuration, all four draws
return 1. -/
theorem C3_witness :
    pCustom.request_rate_distribution = "custom" ∧
    interarrivalDraw pCustom ⟨1/2, 0, 0⟩ = .ok 1 ∧
    processingDraw pCustom ⟨1/2, 0, 0⟩ = .ok 1 ∧
    timeToFailureDraw pCustom ⟨1/2, 0, 0⟩ = .ok 1 ∧
    recoveryDraw pCustom ⟨1/2, 0, 0⟩ = .ok 1 :=
  ⟨rfl, (C3_amended pCustom ⟨1/2, 0, 0⟩).1 rfl, (C3_amended pCustom ⟨1/2, 0, 0⟩).2.1 rfl,
    (C3_amended pCustom ⟨1/2, 0, 0⟩).2.2.1 rfl, (C3_amended pCustom ⟨1/2, 0, 0⟩).2.2.2 rfl⟩

/-- A well-formed one-server configuration. -/
def pOne : Params :=
  { num_servers := 1
    server_processing_time := 1
    queue_timeout := 5
    request_rate := 1
    failure_rate := 1
    recovery_rate := 1
    request_rate_distribution := "exponential"
    server_processing_time_distribution := "exponential"
    failure_rate_distribution := "exponential"
    recovery_time_distribution := "exponential"
    custom_values := [] }

unseal Rat.add Rat.mul Rat.sub Rat.inv in
/-- C4, counterexample.  `WebServiceModel.__init__(env, params)` takes no
seed: all draws come from the process-wide `random` module generator.  Two
runs with the identical configuration `pOne`, advanced to the same horizon
3/2, but with different states of that shared generator (modelled as the
two draw streams, constantly 1 versus constantly 2) produce different
snapshots — 2 versus 1 total requests — so the output is not a function of
a `(config, seed)` pair passed at construction. -/
theorem C4_counterexample :
    get_metrics (runUntil (fun _ => 1) (fun _ => 0) (3/2) 10 (initSim pOne)) ≠
      get_metrics (runUntil (fun _ => 2) (fun _ => 0) (3/2) 10 (initSim pOne)) ∧
    (runUntil (fun _ => 1) (fun _ => 0) (3/2) 10 (initSim pOne)).total = 2 ∧
    (runUntil (fun _ => 2) (fun _ => 0) (3/2) 10 (initSim pOne)).total = 1 := by
  refine ⟨by decide, by decide, by decide⟩

/-- C4, amended.  Reproducibility holds relative to the global generator,
not to a construction-time seed (none exists): two runs with the same
configuration whose global random streams agree pointwise, advanced to the
same horizon with the same step budget, yield identical snapshots. -/
theorem C4_amended (p : Params) (d1 d2 : ℕ → ℚ) (c1 c2 : ℕ → ℕ) (t : ℚ) (fuel : ℕ)
    (hd : ∀ i, d1 i = d2 i) (hc : ∀ i, c1 i = c2 i) :
    get_metrics (runUntil d1 c1 t fuel (initSim p)) =
      get_metrics (runUntil d2 c2 t fuel (initSim p)) := by
  rw [funext hd, funext hc]

/-- Witness for C4: two syntactically different but pointwise-equal
streams give the same snapshot. -/
theorem C4_witness :
    (∀ i : ℕ, (fun _ => (1 : ℚ)) i = (fun n => (n + 1 : ℚ) - n) i) ∧
    get_metrics (runUntil (fun _ => 1) (fun _ => 0) 1 5 (initSim pOne)) =
      get_metrics (runUntil (fun n => (n + 1 : ℚ) - n) (fun _ => 0) 1 5 (initSim pOne)) :=
  ⟨fun i => by push_cast; ring,
    C4_amended pOne (fun _ => 1) (fun n => (n + 1 : ℚ) - n) (fun _ => 0) (fun _ => 0) 1 5
      (fun i => by push_cast; ring) (fun i => rfl)⟩

/-- C5.  In any state (hence in every reachable one), a single event
execution never takes a server from Up (`capacity != 0`) to Down
(`capacity = 0`) unless that server had no users at the instant of the
transition; and when the failure process selects a busy server, the
attempt is skipped: the server pool, `available_servers` and all request
counters are unchanged for that draw. -/
theorem C5_no_down_while_busy (dur : ℕ → ℚ) (ch : ℕ → ℕ) (tg : Target) (st : Sim) :
    (∀ j s s', serverAt st.servers j = some s →
      serverAt (exec dur ch tg st).servers j = some s' →
      s.capacity ≠ 0 → s'.capacity = 0 → s.users = 0) ∧
    (tg = .failResume → ∀ s,
      serverAt st.servers (ch st.chIdx % st.servers.length) = some s → s.users ≠ 0 →
      (exec dur ch tg st).servers = st.servers ∧
      (exec dur ch tg st).available = st.available ∧
      (exec dur ch tg st).completed = st.completed ∧
      (exec dur ch tg st).failed = st.failed) := by
  constructor
  · intro j s s' h1 h2 hup hdown
    exact exec_down_requires_idle dur ch tg st j s s' h1 h2 hup hdown
  · rintro rfl s hat hbusy
    obtain ⟨a, b, -, c, d, -⟩ := exec_failResume_busy_skip dur ch st s hat hbusy
    exact ⟨a, b, c, d⟩

/-- A state with one idle up server about to be selected by the failure
process. -/
def stIdle : Sim :=
  { now := 0
    queue := []
    nextEid := 0
    servers := [⟨1, 0, []⟩]
    total := 0
    completed := 0
    failed := 0
    latency := []
    available := 1
    durIdx := 0
    chIdx := 0
    spawned := 0
    genStarted := true }

/-- Witness for C5: a concrete failure event that takes the idle server
down satisfies the hypotheses, and the conclusion (the server had no
users) plus the busy-skip conclusion on `stBusy` both follow by applying
the theorem. -/
theorem C5_witness :
    serverAt stIdle.servers 0 = some ⟨1, 0, []⟩ ∧
    serverAt (exec (fun _ => 1) (fun _ => 0) .failResume stIdle).servers 0 =
      some ⟨0, 0, []⟩ ∧
    (⟨1, 0, []⟩ : Server).users = 0 ∧
    (exec (fun _ => 1) (fun _ => 0) .failResume stBusy).servers = stBusy.servers :=
  ⟨by decide, by decide,
    (C5_no_down_while_busy (fun _ => 1) (fun _ => 0) .failResume stIdle).1 0 ⟨1, 0, []⟩
      ⟨0, 0, []⟩ (by decide) (by decide) (by decide) (by decide),
    ((C5_no_down_while_busy (fun _ => 1) (fun _ => 0) .failResume stBusy).2 rfl ⟨1, 1, []⟩
      (by decide) (by decide)).1⟩

/-- C6.  At every point of the simulation — after any number of processed
events, and in the snapshot taken by `get_metrics` after any
`env.run(until=t)` — `completed_requests + failed_requests` never exceeds
`total_requests`: each spawned handler settles at most one of the two
terminal counters, and the arrival generator increments `total_requests`
before its handler can run. -/
theorem C6_counters (p : Params) (dur : ℕ → ℚ) (ch : ℕ → ℕ) (k : ℕ) (t : ℚ) (fuel : ℕ) :
    (simSteps dur ch p k).completed + (simSteps dur ch p k).failed ≤
      (simSteps dur ch p k).total ∧
    (get_metrics (runUntil dur ch t fuel (initSim p))).completed_requests +
        (get_metrics (runUntil dur ch t fuel (initSim p))).failed_requests ≤
      (get_metrics (runUntil dur ch t fuel (initSim p))).total_requests :=
  ⟨invCount_le _ (stepIter_invCount dur ch k _ (invCount_init p)),
    invCount_le _ (runUntil_invCount dur ch t fuel p)⟩

/-- C7.  `queue_timeout` is accepted in the configuration but never
consulted: construction and the whole run are unchanged under any
modification of the field, so snapshots at any horizon coincide; and a
request that finds no free server is rejected in the very step that
scanned — `failed_requests` is incremented and nothing is scheduled, no
wait up to `queue_timeout` ever happens. -/
theorem C7_queue_timeout (p : Params) (x : ℚ) (dur : ℕ → ℚ) (ch : ℕ → ℕ) (t : ℚ)
    (fuel : ℕ) :
    get_metrics (runUntil dur ch t fuel (initSim { p with queue_timeout := x })) =
      get_metrics (runUntil dur ch t fuel (initSim p)) ∧
    initSim { p with queue_timeout := x } = initSim p ∧
    (∀ st : Sim, scanServers st.servers = none →
      exec dur ch .handlerStart st = { st with failed := st.failed + 1 }) := by
  refine ⟨rfl, rfl, ?_⟩
  intro st hscan
  simp [exec, hscan]

/-- Witness for C7: concrete snapshots with two different values of
`queue_timeout` coincide, and the immediate-rejection conclusion applies
to the all-busy state. -/
theorem C7_witness :
    get_metrics (runUntil (fun _ => 1) (fun _ => 0) 1 5
        (initSim { pOne with queue_timeout := 9 })) =
      get_metrics (runUntil (fun _ => 1) (fun _ => 0) 1 5 (initSim pOne)) ∧
    scanServers stBusy.servers = none ∧
    exec (fun _ => 1) (fun _ => 0) .handlerStart stBusy =
      { stBusy with failed := stBusy.failed + 1 } :=
  ⟨(C7_queue_timeout pOne 9 (fun _ => 1) (fun _ => 0) 1 5).1, by decide,
    (C7_queue_timeout pOne 9 (fun _ => 1) (fun _ => 0) 1 5).2.2 stBusy (by decide)⟩

/-- The four distribution names the model recognises. -/
def distNames : List String := ["exponential", "uniform", "normal", "custom"]

theorem random_value_nonneg (dist : String) (args : RVArgs) (r : Rand)
    (hu0 : 0 ≤ r.u) (hu1 : r.u < 1) (hrate : 0 < args.rate.getD 1)
    (hlow : 0 < args.low.getD 0) (hhigh : 0 < args.high.getD 1)
    (hvals : args.values = none)
    (hd : dist = "exponential" ∨ dist = "uniform" ∨ dist = "normal" ∨ dist = "custom") :
    ∃ v, random_value dist args r = .ok v ∧ 0 ≤ v := by
  rcases hd with rfl | rfl | rfl | rfl
  · refine ⟨-Real.log (1 - r.u) / args.rate.getD 1, by simp [random_value], ?_⟩
    apply div_nonneg _ hrate.le
    rw [neg_nonneg]
    exact Real.log_nonpos (by linarith) (by linarith)
  · refine ⟨args.low.getD 0 + (args.high.getD 1 - args.low.getD 0) * r.u,
      by simp [random_value], ?_⟩
    rcases le_or_lt 0 (args.high.getD 1 - args.low.getD 0) with hs | hs
    · nlinarith [mul_nonneg hs hu0]
    · nlinarith [mul_le_mul_of_nonpos_left hu1.le hs.le]
  · exact ⟨max 0 (args.mean.getD 0 + args.std.getD 1 * r.z), by simp [random_value],
      le_max_left 0 _⟩
  · refine ⟨1, ?_, by norm_num⟩
    simp [random_value, hvals, Nat.mod_one]

/-- C8.  With the parameters the model passes at its four call sites
(positive rates and means, `low = 0.1`) and any library draw
(`random() ∈ [0,1)`, any normal variate), every supported distribution
name yields a defined, non-negative duration; in particular the normal
draw is clamped with `max 0`, so no negative duration reaches the event
queue. -/
theorem C8_nonneg (p : Params) (r : Rand) (hu0 : 0 ≤ r.u) (hu1 : r.u < 1)
    (hspt : 0 < p.server_processing_time) (hrr : 0 < p.request_rate)
    (hfr : 0 < p.failure_rate) (hrec : 0 < p.recovery_rate) :
    (p.request_rate_distribution ∈ distNames →
      ∃ v, interarrivalDraw p r = .ok v ∧ 0 ≤ v) ∧
    (p.server_processing_time_distribution ∈ distNames →
      ∃ v, processingDraw p r = .ok v ∧ 0 ≤ v) ∧
    (p.failure_rate_distribution ∈ distNames →
      ∃ v, timeToFailureDraw p r = .ok v ∧ 0 ≤ v) ∧
    (p.recovery_time_distribution ∈ distNames →
      ∃ v, recoveryDraw p r = .ok v ∧ 0 ≤ v) := by
  have hrr2 : (0 : ℝ) < (p.request_rate : ℚ) := by exact_mod_cast hrr
  have hfr2 : (0 : ℝ) < (p.failure_rate : ℚ) := by exact_mod_cast hfr
  have hrec2 : (0 : ℝ) < (p.recovery_rate : ℚ) := by exact_mod_cast hrec
  have hspt2 : (0 : ℝ) < (p.server_processing_time : ℚ) := by exact_mod_cast hspt
  refine ⟨fun hm => ?_, fun hm => ?_, fun hm => ?_, fun hm => ?_⟩
  · exact random_value_nonneg _ _ r hu0 hu1 (by simpa using hrr2) (by norm_num)
      (by simp only [Option.getD_some]; positivity) rfl (by simpa [distNames] using hm)
  · exact random_value_nonneg _ _ r hu0 hu1 (by norm_num) (by norm_num)
      (by simp only [Option.getD_some]; positivity) rfl (by simpa [distNames] using hm)
  · exact random_value_nonneg _ _ r hu0 hu1 (by simpa using hfr2) (by norm_num)
      (by simp only [Option.getD_some]; positivity) rfl (by simpa [distNames] using hm)
  · exact random_value_nonneg _ _ r hu0 hu1 (by simpa using hrec2) (by norm_num)
      (by simp only [Option.getD_some]; positivity) rfl (by simpa [distNames] using hm)

/-- Witness for C8: the one-server exponential configuration with the
draw `random() = 1/2` gives defined non-negative durations at every call
site. -/
theorem C8_witness :
    (0 : ℝ) ≤ 1/2 ∧ (1/2 : ℝ) < 1 ∧ (0 : ℚ) < 1 ∧
    pOne.request_rate_distribution ∈ distNames ∧
    (∃ v, interarrivalDraw pOne ⟨1/2, 0, 0⟩ = .ok v ∧ 0 ≤ v) ∧
    (∃ v, processingDraw pOne ⟨1/2, 0, 0⟩ = .ok v ∧ 0 ≤ v) :=
  ⟨by norm_num, by norm_num, by norm_num, by decide,
    (C8_nonneg pOne ⟨1/2, 0, 0⟩ (by norm_num) (by norm_num) (by decide) (by decide)
      (by decide) (by decide)).1 (by decide),
    (C8_nonneg pOne ⟨1/2, 0, 0⟩ (by norm_num) (by norm_num) (by decide) (by decide)
      (by decide) (by decide)).2.1 (by decide)⟩

/-- C9.  In every reachable state of a run over a configuration with a
non-negative server count — hence at every snapshot — `available_servers`
equals the number of servers whose raw capacity is still 1 (in service),
and lies between 0 and `num_servers`. -/
theorem C9_available (p : Params) (dur : ℕ → ℚ) (ch : ℕ → ℕ) (k : ℕ) (t : ℚ) (fuel : ℕ)
    (h : 0 ≤ p.num_servers) :
    ((simSteps dur ch p k).available = (countUp (simSteps dur ch p k).servers : ℤ) ∧
      0 ≤ (simSteps dur ch p k).available ∧
      (simSteps dur ch p k).available ≤ p.num_servers) ∧
    ((get_metrics (runUntil dur ch t fuel (initSim p))).available_servers =
        (countUp (runUntil dur ch t fuel (initSim p)).servers : ℤ) ∧
      0 ≤ (get_metrics (runUntil dur ch t fuel (initSim p))).available_servers ∧
      (get_metrics (runUntil dur ch t fuel (initSim p))).available_servers ≤
        p.num_servers) := by
  have h1 := invAvail_consequences _ _ (stepIter_invAvail dur ch _ k _ (invAvail_init p h))
  have h2 := invAvail_consequences _ _ (runUntil_invAvail dur ch t fuel p h)
  rw [Int.toNat_of_nonneg h] at h1 h2
  exact ⟨h1, h2⟩

/-- Witness for C9: the one-server configuration after one processed
event. -/
theorem C9_witness :
    (0 : ℤ) ≤ pOne.num_servers ∧
    (simSteps (fun _ => 1) (fun _ => 0) pOne 1).available =
      (countUp (simSteps (fun _ => 1) (fun _ => 0) pOne 1).servers : ℤ) ∧
    (simSteps (fun _ => 1) (fun _ => 0) pOne 1).available ≤ pOne.num_servers :=
  ⟨by decide,
    ((C9_available pOne (fun _ => 1) (fun _ => 0) 1 0 0 (by decide)).1).1,
    ((C9_available pOne (fun _ => 1) (fun _ => 0) 1 0 0 (by decide)).1).2.2⟩

/-- C10.  `generate_requests` increments `total_requests` before
suspending for the interarrival delay, so once the run has started (at
least one event processed), `total_requests` always exceeds the number of
request handlers spawned so far by exactly one — it counts one request
that has not yet arrived — and consequently
`completed_requests + failed_requests ≤ total_requests - 1` at every such
point. -/
theorem C10_total_ahead (p : Params) (dur : ℕ → ℚ) (ch : ℕ → ℕ) (k : ℕ) (hk : 1 ≤ k) :
    (simSteps dur ch p k).total = (simSteps dur ch p k).spawned + 1 ∧
    (simSteps dur ch p k).completed + (simSteps dur ch p k).failed + 1 ≤
      (simSteps dur ch p k).total := by
  have h := stepIter_invCount dur ch k _ (invCount_init p)
  have hg := simSteps_genStarted dur ch p k hk
  obtain ⟨bal, tot, -⟩ := h
  simp only [simSteps] at hg ⊢
  rw [hg] at tot
  simp only [genFlag] at tot
  exact ⟨tot, by omega⟩

/-- Witness for C10: after exactly one event (the generator start),
`total_requests` is 1 while no handler has been spawned. -/
theorem C10_witness :
    (1 : ℕ) ≤ 1 ∧
    (simSteps (fun _ => 1) (fun _ => 0) pOne 1).total =
      (simSteps (fun _ => 1) (fun _ => 0) pOne 1).spawned + 1 :=
  ⟨Nat.le_refl 1, (C10_total_ahead pOne (fun _ => 1) (fun _ => 0) 1 (Nat.le_refl 1)).1⟩

end Highload
